import Mathlib

/-
Verification of the sharded account storage and resumable-computation layer
of the elusiv program.

The Lean definitions below are a shallow embedding of the Rust sources:
  - src/state/program_account.rs  (PDAAccount, BigArrayAccount, the
    partial-computation record)
  - src/processor/accounts.rs     (PDA opening, multi-account binding,
    external sub-account validation)

Rust `usize` arithmetic is embedded as `Nat` (all quantities involved are
sizes and indices, far below 2^64, and the Rust code performs no wrapping
arithmetic on them; `index - account_index * MAX_VALUES_PER_ACCOUNT` is
never a wrapping subtraction because `account_index * mva <= index`).
Account byte buffers are `List Nat`; a Rust slice-index panic is embedded
as an `Option` result being `none`.
-/

namespace Elusiv

/-- Error values used by the guards in src/processor/accounts.rs.
The source file uses `ElusivError::InvalidInstructionData` for every guard
modelled here; `accountAlreadyExists` stands for the system-program failure
when `create_pda_account` targets an existing account. -/
inductive ElusivErr where
  | invalidInstructionData
  | invalidFeeVersion
  | accountAlreadyExists
deriving DecidableEq, Repr

/-- src/state/program_account.rs line 19: `const MAX_ACCOUNT_SIZE: usize = 10_000_000;`. -/
def MAX_ACCOUNT_SIZE : Nat := 10000000

/-- src/state/program_account.rs line 31:
`const MAX_VALUES_PER_ACCOUNT: usize = MAX_ACCOUNT_SIZE / Self::T::SIZE;`.
`maxUnitSize` embeds `MAX_ACCOUNT_SIZE` (kept as a parameter so the layout
can also be evaluated at other ceilings) and `w` embeds `Self::T::SIZE`. -/
def maxValuesPerAccount (maxUnitSize w : Nat) : Nat := maxUnitSize / w

/-- src/state/program_account.rs line 32:
`const ACCOUNTS_COUNT: usize = Self::SIZE / Self::MAX_VALUES_PER_ACCOUNT
 + (if Self::SIZE % Self::MAX_VALUES_PER_ACCOUNT == 0 { 0 } else { 1 });`. -/
def accountsCount (size mva : Nat) : Nat :=
  size / mva + (if size % mva = 0 then 0 else 1)

/-- src/state/program_account.rs lines 35-38: `account_and_local_index`.
`mva` embeds the trait constant `Self::MAX_VALUES_PER_ACCOUNT`. -/
def accountAndLocalIndex (mva index : Nat) : Nat × Nat :=
  let accountIndex := index / mva
  (accountIndex, index - accountIndex * mva)

/-- src/state/program_account.rs lines 54-64: `get_mut_array_slice`.
The loop `for i in start_account_index..=end_account_index` concatenates the
data of the spanned array accounts; the final Rust slice expression
`&data[start_local_index * W .. (end_local_index + end_account_index * mva) * W]`
panics when its bounds are ill-formed or exceed the buffer, embedded here as
`none`. `shards` embeds the byte buffers of `get_array_accounts()`. -/
def getMutArraySlice (w mva : Nat) (shards : List (List Nat))
    (startIndex endIndex : Nat) : Option (List Nat) :=
  let s := accountAndLocalIndex mva startIndex
  let e := accountAndLocalIndex mva endIndex
  let data := ((List.range (e.1 + 1 - s.1)).map (fun k => shards.getD (s.1 + k) [])).flatten
  let lo := s.2 * w
  let hi := (e.2 + e.1 * mva) * w
  if lo ≤ hi ∧ hi ≤ data.length then some ((data.drop lo).take (hi - lo)) else none

/-- Modelled from the spec (section 4.2): the heterogeneous per-shard sizes
`INTERMEDIARY_ACCOUNT_SIZE` / `LAST_ACCOUNT_SIZE` are declared on
`HeterogenMultiAccountAccount`, whose definition is not under src/; the spec
states that every shard except the last holds `capacity-per-shard` elements
and the last holds the remainder. This gives the element count of shard `a`. -/
def shardElemCount (size mva a : Nat) : Nat :=
  if a + 1 < accountsCount size mva then mva else size - a * mva

/-- The byte buffers backing a big array are well formed when there is one
buffer per array account and each buffer holds exactly the serialized bytes
of the elements of its shard. -/
def WellFormedShards (w size mva : Nat) (shards : List (List Nat)) : Prop :=
  shards.length = accountsCount size mva ∧
  ∀ a, a < shards.length → (shards.getD a []).length = shardElemCount size mva a * w

/-- Overwrite `bytes.length` bytes of `buffer` starting at `offset`; embeds
what `Self::T::write(value, slice)` does to the containing account buffer,
where the slice is `&buffer[offset .. offset + W]`. -/
def writeBytes (buffer : List Nat) (offset : Nat) (bytes : List Nat) : List Nat :=
  buffer.take offset ++ bytes ++ buffer.drop (offset + bytes.length)

/-- src/state/program_account.rs lines 40-44: the byte slice
`&account_data[local_index * W .. (local_index + 1) * W]` that `account_data`
returns for a logical index. -/
def accountDataSlice (w mva : Nat) (shards : List (List Nat)) (index : Nat) : List Nat :=
  ((shards.getD (accountAndLocalIndex mva index).1 []).drop
    ((accountAndLocalIndex mva index).2 * w)).take w

/-- src/state/program_account.rs lines 46-48: `get`, with the deserializer
of `Self::T` passed explicitly (the `SerDe` implementation lives outside src/). -/
def bigArrayGet {α : Type} (deserialize : List Nat → α) (w mva : Nat)
    (shards : List (List Nat)) (index : Nat) : α :=
  deserialize (accountDataSlice w mva shards index)

/-- src/state/program_account.rs lines 50-52: `set`, writing the serialized
bytes of `value` over the `W`-byte slice of logical slot `index`. -/
def bigArraySet {α : Type} (serialize : α → List Nat) (w mva : Nat)
    (shards : List (List Nat)) (index : Nat) (value : α) : List (List Nat) :=
  shards.set (accountAndLocalIndex mva index).1
    (writeBytes (shards.getD (accountAndLocalIndex mva index).1 [])
      ((accountAndLocalIndex mva index).2 * w) (serialize value))

/-- Account state relevant to `verify_extern_data_account`
(src/processor/accounts.rs lines 190-211): byte buffer, lamport balance and
owner key of an externally supplied sub-account. -/
structure ExternAccount where
  data : List Nat
  lamports : Nat
  owner : Nat
deriving DecidableEq, Repr

/-- src/bytes `is_zero`, as used by the zeroness guard: every byte is zero. -/
def isZeroBytes (l : List Nat) : Bool := l.all (fun b => b == 0)

/-- `u64::MAX`. -/
def U64_MAX : Nat := 18446744073709551615

/-- src/processor/accounts.rs lines 190-211: `verify_extern_data_account`.
`programId` embeds `crate::id()`, `testMode` embeds `cfg!(test)` and
`minimumBalance` embeds `Rent::get()?.minimum_balance`. The guards are kept
in source order; every failure is `InvalidInstructionData`. -/
def verifyExternDataAccount (programId : Nat) (testMode : Bool)
    (minimumBalance : Nat → Nat) (account : ExternAccount) (dataLen : Nat)
    (checkZeroness : Bool) : Except ElusivErr Unit :=
  if account.data.length ≠ dataLen then .error .invalidInstructionData
  else if checkZeroness && !(isZeroBytes account.data) then .error .invalidInstructionData
  else if (if testMode then U64_MAX / 2 ≤ account.lamports
           else minimumBalance dataLen ≤ account.lamports) then
    if account.owner ≠ programId then .error .invalidInstructionData else .ok ()
  else .error .invalidInstructionData

/-- src/processor/accounts.rs lines 214-230: `verify_heterogen_sub_accounts`.
Child `i` is validated against `INTERMEDIARY_ACCOUNT_SIZE` when
`i < T::COUNT - 1` and against `LAST_ACCOUNT_SIZE` otherwise; the loop stops
at the first error (`?` operator), embedded by the bind in the fold. -/
def verifyHeterogenSubAccounts (programId : Nat) (testMode : Bool)
    (minimumBalance : Nat → Nat) (count intermediarySize lastSize : Nat)
    (getAccount : Nat → ExternAccount) (checkZeroness : Bool) :
    Except ElusivErr Unit :=
  (List.range count).foldl
    (fun r i => r.bind (fun _ =>
      verifyExternDataAccount programId testMode minimumBalance (getAccount i)
        (if i < count - 1 then intermediarySize else lastSize) checkZeroness))
    (Except.ok ())

/-- A decidable restatement of the success conditions of
`verify_extern_data_account`, following the words of the spec (section 4.2):
size match, zeroed when requested, rent exemption (or the fixed test-mode
threshold), program ownership. Used to compare the source function against
the spec. -/
def childOk (programId : Nat) (testMode : Bool) (minimumBalance : Nat → Nat)
    (account : ExternAccount) (dataLen : Nat) (checkZeroness : Bool) : Bool :=
  (account.data.length == dataLen) &&
  (!checkZeroness || isZeroBytes account.data) &&
  (if testMode then decide (U64_MAX / 2 ≤ account.lamports)
   else decide (minimumBalance dataLen ≤ account.lamports)) &&
  (account.owner == programId)

/-- Spec-side restatement of the success condition of the whole heterogeneous
validation pass: every child passes `childOk` against its size class. -/
def allChildrenOk (programId : Nat) (testMode : Bool) (minimumBalance : Nat → Nat)
    (count intermediarySize lastSize : Nat) (getAccount : Nat → ExternAccount)
    (checkZeroness : Bool) : Bool :=
  (List.range count).all (fun i =>
    childOk programId testMode minimumBalance (getAccount i)
      (if i < count - 1 then intermediarySize else lastSize) checkZeroness)

/-- State of a multi-account parent record as touched by
`setup_multi_account_account` (src/processor/accounts.rs lines 167-187):
the one-time initialization flag, the stored pubkey table, and the keys of
the `T::COUNT` supplied child accounts (`account.get_account(i).key`). -/
structure MultiAccountState where
  pdaInitialized : Bool
  pubkeys : List Nat
  accountKeys : List Nat
deriving DecidableEq, Repr

/-- src/processor/accounts.rs line 117 doc comment: the `StorageAccount`
has 7 sub-accounts, so `StorageAccount::COUNT = 7`. -/
def STORAGE_ACCOUNT_COUNT : Nat := 7

/-- src/processor/accounts.rs lines 167-187: `setup_multi_account_account`.
Returns the guard outcome together with the record state at the point the
function returns (the function mutates the record in place, so state written
before a failing guard stays written at the layer level). `count` embeds the
generic `T::COUNT`; `storageAccountCount` embeds `StorageAccount::COUNT`,
which is what the duplicate guard in the source compares against
(`guard!(set.len() == StorageAccount::COUNT, ...)`). -/
def setupMultiAccountAccount (count storageAccountCount : Nat)
    (s : MultiAccountState) : Except ElusivErr Unit × MultiAccountState :=
  if s.pdaInitialized then (.error .invalidInstructionData, s)
  else
    let pks := (List.range count).map (fun i => s.accountKeys.getD i 0)
    let s1 : MultiAccountState := { s with pubkeys := pks }
    if pks.dedup.length = storageAccountCount then
      let s2 : MultiAccountState := { s1 with pdaInitialized := true }
      if s2.pdaInitialized then (.ok (), s2) else (.error .invalidInstructionData, s2)
    else (.error .invalidInstructionData, s1)

/-- Modelled from the spec (section 4.1): `create_pda_account` lives in
src/processor/utils.rs, which is not under src/. Per the spec it fails with
`AlreadyExists` when a unit already lives at the target address and otherwise
allocates a fresh zeroed unit there. The ledger is embedded as the list of
existing account addresses. -/
def createPdaAccount (ledger : List Nat) (addr : Nat) :
    Except ElusivErr Unit × List Nat :=
  if addr ∈ ledger then (.error .accountAlreadyExists, ledger)
  else (.ok (), addr :: ledger)

/-- src/processor/accounts.rs lines 83-99: `open_pda_account_with_offset`.
`find` embeds `T::find` (the deterministic PDA derivation, defined outside
src/, modelled from the spec as a pure function from the optional offset to
the derived address and bump). The source recomputes
`(pk, bump) = T::find(Some(pda_offset))`, fails with
`InvalidInstructionData` when `pk != *pda_account.key`, and only then calls
`create_pda_account`. -/
def openPdaAccountWithOffset (find : Option Nat → Nat × Nat)
    (pdaAccountKey pdaOffset : Nat) (ledger : List Nat) :
    Except ElusivErr Unit × List Nat :=
  if (find (some pdaOffset)).1 ≠ pdaAccountKey then (.error .invalidInstructionData, ledger)
  else createPdaAccount ledger pdaAccountKey

/-- src/processor/accounts.rs lines 101-115: `open_pda_account_without_offset`;
identical to the offset variant but derives from `T::find(None)`. -/
def openPdaAccountWithoutOffset (find : Option Nat → Nat × Nat)
    (pdaAccountKey : Nat) (ledger : List Nat) :
    Except ElusivErr Unit × List Nat :=
  if (find none).1 ≠ pdaAccountKey then (.error .invalidInstructionData, ledger)
  else createPdaAccount ledger pdaAccountKey

/-- The resumable-computation record of src/state/program_account.rs
lines 86-98 (`is_active`, `round`, `total_rounds`, `fee_payer`). -/
structure ComputationRecord where
  isActive : Bool
  round : Nat
  totalRounds : Nat
  feePayer : Nat
deriving DecidableEq, Repr

/-- Modelled from the spec (section 4.5): `start(total_rounds, fee_payer)`
fails when a computation is active, otherwise activates the record with
`round = 0`. Only the record declaration is under src/; the operations are
modelled from the spec state machine. -/
def recordStart (c : ComputationRecord) (total payer : Nat) :
    Except ElusivErr ComputationRecord :=
  if c.isActive then .error .invalidInstructionData
  else .ok { isActive := true, round := 0, totalRounds := total, feePayer := payer }

/-- Modelled from the spec (section 4.5): `advance()` fails when the record
is idle or already complete, otherwise increments `round` by exactly 1. -/
def recordAdvance (c : ComputationRecord) : Except ElusivErr ComputationRecord :=
  if !c.isActive then .error .invalidInstructionData
  else if c.round = c.totalRounds then .error .invalidInstructionData
  else .ok { c with round := c.round + 1 }

/-- Modelled from the spec (section 4.5): `is_complete()` is true iff
`round == total_rounds`. -/
def recordIsComplete (c : ComputationRecord) : Bool := c.round == c.totalRounds

/-- Modelled from the spec (section 4.5): `finalize()` requires an active,
complete computation and resets the record to idle. -/
def recordFinalize (c : ComputationRecord) : Except ElusivErr ComputationRecord :=
  if !c.isActive then .error .invalidInstructionData
  else if c.round ≠ c.totalRounds then .error .invalidInstructionData
  else .ok { c with isActive := false }

end Elusiv

namespace Elusiv

theorem aux_recover (mva i : Nat) :
    (accountAndLocalIndex mva i).1 * mva + (accountAndLocalIndex mva i).2 = i := by
  have h : i / mva * mva ≤ i := Nat.div_mul_le_self i mva
  simp only [accountAndLocalIndex]
  omega

theorem aux_local_eq_mod (mva i : Nat) :
    (accountAndLocalIndex mva i).2 = i % mva := by
  have h := Nat.div_add_mod i mva
  rw [Nat.mul_comm] at h
  simp only [accountAndLocalIndex]
  omega

theorem aux_div_lt_accountsCount (size mva i : Nat) (hm : 0 < mva) (hi : i < size) :
    i / mva < accountsCount size mva := by
  unfold accountsCount
  by_cases hr : size % mva = 0
  · rw [if_pos hr]
    have hdvd : mva ∣ size := Nat.dvd_of_mod_eq_zero hr
    simpa using Nat.div_lt_div_of_lt_of_dvd hdvd hi
  · rw [if_neg hr]
    have : i / mva ≤ size / mva := Nat.div_le_div_right (Nat.le_of_lt hi)
    omega

theorem aux_accountsCount_eq_ceil (size mva : Nat) (hm : 0 < mva) :
    accountsCount size mva = (size + mva - 1) / mva := by
  obtain ⟨q, r, hrlt, rfl⟩ : ∃ q r, r < mva ∧ size = mva * q + r :=
    ⟨size / mva, size % mva, Nat.mod_lt _ hm, (Nat.div_add_mod size mva).symm⟩
  rw [accountsCount, Nat.mul_add_div hm, Nat.mul_add_mod, Nat.mod_eq_of_lt hrlt,
    Nat.div_eq_of_lt hrlt]
  by_cases hr0 : r = 0
  · subst hr0
    have hrw : mva * q + 0 + mva - 1 = mva * q + (mva - 1) := by omega
    rw [hrw, Nat.mul_add_div hm, Nat.div_eq_of_lt (by omega), if_pos rfl]
  · have hms : mva * (q + 1) = mva * q + mva := Nat.mul_succ mva q
    have hrw : mva * q + r + mva - 1 = mva * (q + 1) + (r - 1) := by omega
    rw [hrw, Nat.mul_add_div hm, Nat.div_eq_of_lt (by omega), if_neg hr0]

/-- Claim C1: for every logical index `i < SIZE` (with a positive per-shard
capacity, as in the program, where capacity and shard count are the derived
constants of `BigArrayAccount`), the pair computed by
`account_and_local_index` satisfies `shard * MAX_VALUES_PER_ACCOUNT + local = i`
and `shard < ACCOUNTS_COUNT`, and the mapping is injective over `[0, SIZE)`. -/
theorem c1_index_mapping (maxUnitSize w size mva i j : Nat)
    (hmva : mva = maxValuesPerAccount maxUnitSize w)
    (hm : 0 < mva) (hi : i < size) (hj : j < size) :
    (accountAndLocalIndex mva i).1 * mva + (accountAndLocalIndex mva i).2 = i ∧
    (accountAndLocalIndex mva i).1 < accountsCount size mva ∧
    (accountAndLocalIndex mva i = accountAndLocalIndex mva j → i = j) := by
  refine ⟨aux_recover mva i, ?_, ?_⟩
  · simpa [accountAndLocalIndex] using aux_div_lt_accountsCount size mva i hm hi
  · intro heq
    have h1 := aux_recover mva i
    have h2 := aux_recover mva j
    rw [heq] at h1
    omega

theorem c1_index_mapping_witness :
    (accountAndLocalIndex 312500 12499).1 * 312500 + (accountAndLocalIndex 312500 12499).2 = 12499 ∧
    (accountAndLocalIndex 312500 12499).1 < accountsCount 20000 312500 ∧
    (accountAndLocalIndex 312500 12499 = accountAndLocalIndex 312500 7 → 12499 = 7) :=
  c1_index_mapping 10000000 32 20000 312500 12499 7 (by decide) (by decide)
    (by decide) (by decide)

/-- Claim C7: the shard-layout constants are derived, not configured:
`MAX_VALUES_PER_ACCOUNT` is the floor of the unit ceiling over the element
width, `ACCOUNTS_COUNT` is the ceiling of `SIZE` over the capacity, and the
concrete scenarios of the spec evaluate as stated: a 10,000,000-byte ceiling
with `W = 32` gives capacity 312,500 and 1 shard for 20,000 elements; a
400,000-byte ceiling gives capacity 12,500 and 2 shards, with index 12,499
mapping to shard 0 local 12,499 and index 12,500 to shard 1 local 0. -/
theorem c7_layout_constants (size mva : Nat) (hm : 0 < mva) :
    accountsCount size mva = (size + mva - 1) / mva ∧
    maxValuesPerAccount MAX_ACCOUNT_SIZE 32 = 312500 ∧
    accountsCount 20000 (maxValuesPerAccount MAX_ACCOUNT_SIZE 32) = 1 ∧
    maxValuesPerAccount 400000 32 = 12500 ∧
    accountsCount 20000 (maxValuesPerAccount 400000 32) = 2 ∧
    accountAndLocalIndex (maxValuesPerAccount 400000 32) 12499 = (0, 12499) ∧
    accountAndLocalIndex (maxValuesPerAccount 400000 32) 12500 = (1, 0) := by
  refine ⟨aux_accountsCount_eq_ceil size mva hm, ?_, ?_, ?_, ?_, ?_, ?_⟩ <;> decide

theorem aux_foldl_bind_error (f : Nat → Except ElusivErr Unit) (l : List Nat)
    (e : ElusivErr) :
    l.foldl (fun r i => r.bind (fun _ => f i)) (Except.error e) = Except.error e := by
  induction l with
  | nil => rfl
  | cons a l ih =>
      simp only [List.foldl_cons]
      have hstep : (Except.error e : Except ElusivErr Unit).bind (fun _ => f a) =
          Except.error e := rfl
      rw [hstep, ih]

theorem aux_foldl_bind_ok_iff (f : Nat → Except ElusivErr Unit) (l : List Nat) :
    l.foldl (fun r i => r.bind (fun _ => f i)) (Except.ok ()) = Except.ok () ↔
    ∀ i ∈ l, f i = Except.ok () := by
  induction l with
  | nil => simp
  | cons a l ih =>
      simp only [List.foldl_cons, List.mem_cons]
      have hstep : (Except.ok () : Except ElusivErr Unit).bind (fun _ => f a) = f a := rfl
      rw [hstep]
      cases hfa : f a with
      | ok u =>
          cases u
          constructor
          · intro h i hi
            rcases hi with rfl | hi
            · exact hfa
            · exact ih.mp h i hi
          · intro h
            exact ih.mpr (fun i hi => h i (Or.inr hi))
      | error e =>
          rw [aux_foldl_bind_error]
          constructor
          · intro h
            cases h
          · intro h
            have := h a (Or.inl rfl)
            rw [hfa] at this
            cases this

theorem aux_verify_extern_iff (pid : Nat) (tm : Bool) (mb : Nat → Nat)
    (a : ExternAccount) (dl : Nat) (cz : Bool) :
    verifyExternDataAccount pid tm mb a dl cz = Except.ok () ↔
    childOk pid tm mb a dl cz = true := by
  unfold verifyExternDataAccount childOk
  split_ifs with h1 h2 h3 h4 <;>
    simp_all [Bool.and_eq_true, decide_eq_true_iff] <;>
    cases cz <;> simp_all

/-- Claim C2 (refuted, code bug): `get_mut_array_slice` computes the end of
the final slice as `(end_local + end_account * mva) * W` relative to a buffer
that begins at the start shard, so whenever the start index lies in a shard
with index greater than 0 the bound overruns the buffer and the slice panics
(embedded as `none`). With `W = 1`, two shards of 2 elements each holding
bytes `[10, 11]` and `[12, 13]`, the request `start = 2, end = 3` (entirely
inside shard 1) panics instead of returning the spanned bytes; the second
conjunct shows that even a request starting in shard 0 (`start = 0, end = 3`)
returns `[10, 11, 12]`, dropping the element at the end index. -/
theorem c2_get_mut_array_slice_bug :
    getMutArraySlice 1 2 [[10, 11], [12, 13]] 2 3 = none ∧
    getMutArraySlice 1 2 [[10, 11], [12, 13]] 0 3 = some [10, 11, 12] := by
  exact ⟨rfl, rfl⟩

/-- Claim C3 (refuted, code bug): the duplicate guard of
`setup_multi_account_account` compares the number of distinct supplied
pubkeys against `StorageAccount::COUNT` (7) instead of the generic
`T::COUNT`. For a container with `T::COUNT = 8`, a supplied list with one
repeated key (7 distinct among 8) is accepted, and for a container with
`T::COUNT = 3`, three pairwise-distinct keys are rejected — both contradict
the claim. -/
theorem c3_duplicate_check_bug :
    (setupMultiAccountAccount 8 STORAGE_ACCOUNT_COUNT
        ⟨false, [], [0, 1, 2, 3, 4, 5, 6, 0]⟩).1 = Except.ok () ∧
    (setupMultiAccountAccount 3 STORAGE_ACCOUNT_COUNT
        ⟨false, [], [0, 1, 2]⟩).1 = Except.error ElusivErr.invalidInstructionData := by
  exact ⟨rfl, rfl⟩

/-- Claim C4: the validation pass over the container children succeeds if
and only if every child `i` has data length `INTERMEDIARY_ACCOUNT_SIZE` for
`i < COUNT - 1` and `LAST_ACCOUNT_SIZE` for the last child, is all-zero when
zero-checking is requested, holds at least the rent-exemption minimum for its
size (the fixed `u64::MAX / 2` threshold in test mode), and is owned by this
program — `allChildrenOk` is the decidable spelling of exactly those
conditions. The pass returns only a guard outcome and mutates nothing by
construction. -/
theorem c4_verify_sub_accounts_iff (pid : Nat) (tm : Bool) (mb : Nat → Nat)
    (count intermediarySize lastSize : Nat) (getAccount : Nat → ExternAccount)
    (cz : Bool) :
    verifyHeterogenSubAccounts pid tm mb count intermediarySize lastSize
        getAccount cz = Except.ok () ↔
    allChildrenOk pid tm mb count intermediarySize lastSize getAccount cz
        = true := by
  unfold verifyHeterogenSubAccounts allChildrenOk
  rw [aux_foldl_bind_ok_iff, List.all_eq_true]
  constructor
  · intro h i hi
    exact (aux_verify_extern_iff pid tm mb (getAccount i) _ cz).mp (h i hi)
  · intro h i hi
    exact (aux_verify_extern_iff pid tm mb (getAccount i) _ cz).mpr (h i hi)

theorem c4_verify_sub_accounts_iff_witness :
    verifyHeterogenSubAccounts 1 true (fun _ => 0) 2 2 1
        (fun i => if i = 0 then ⟨[0, 0], U64_MAX, 1⟩ else ⟨[0], U64_MAX, 1⟩) true
        = Except.ok () :=
  (c4_verify_sub_accounts_iff 1 true (fun _ => 0) 2 2 1
      (fun i => if i = 0 then ⟨[0, 0], U64_MAX, 1⟩ else ⟨[0], U64_MAX, 1⟩)
      true).mpr (by decide)

/-- Claim C5 counterexample: binding a container is not free of partial state
change at this layer. With two supplied children that share the key 7, the
source writes the pubkey table (`set_all_pubkeys`) before the duplicate guard
fires, so the call returns an error while the record state differs from the
state before the call. -/
theorem c5_partial_state_counterexample :
    (setupMultiAccountAccount 2 2 ⟨false, [], [7, 7]⟩).1 =
      Except.error ElusivErr.invalidInstructionData ∧
    (setupMultiAccountAccount 2 2 ⟨false, [], [7, 7]⟩).2 ≠
      (⟨false, [], [7, 7]⟩ : MultiAccountState) := by
  refine ⟨rfl, ?_⟩
  decide

/-- Claim C5 as amended: opening a PDA account (either variant) leaves the
ledger unchanged whenever it returns an error, and binding a container leaves
the record unchanged when it fails the already-initialized guard; the
remaining failure path of binding (the duplicate guard) may leave the pubkey
table written, with atomicity supplied by the host transaction rollback
rather than by this layer (and the validation pass mutates nothing by
construction, returning only a guard outcome). -/
theorem c5_no_partial_state_amended (find : Option Nat → Nat × Nat)
    (key off : Nat) (ledger : List Nat) (e : ElusivErr)
    (count storageAccountCount : Nat) (s : MultiAccountState) :
    ((openPdaAccountWithOffset find key off ledger).1 = Except.error e →
      (openPdaAccountWithOffset find key off ledger).2 = ledger) ∧
    ((openPdaAccountWithoutOffset find key ledger).1 = Except.error e →
      (openPdaAccountWithoutOffset find key ledger).2 = ledger) ∧
    (s.pdaInitialized = true →
      setupMultiAccountAccount count storageAccountCount s =
        (Except.error ElusivErr.invalidInstructionData, s)) := by
  refine ⟨?_, ?_, ?_⟩
  · intro h
    by_cases hc : (find (some off)).1 ≠ key
    · simp [openPdaAccountWithOffset, hc]
    · by_cases hmem : key ∈ ledger
      · simp [openPdaAccountWithOffset, createPdaAccount, hc, hmem]
      · exfalso
        simp [openPdaAccountWithOffset, createPdaAccount, hc, hmem] at h
  · intro h
    by_cases hc : (find none).1 ≠ key
    · simp [openPdaAccountWithoutOffset, hc]
    · by_cases hmem : key ∈ ledger
      · simp [openPdaAccountWithoutOffset, createPdaAccount, hc, hmem]
      · exfalso
        simp [openPdaAccountWithoutOffset, createPdaAccount, hc, hmem] at h
  · intro h
    simp [setupMultiAccountAccount, h]

theorem c5_no_partial_state_amended_witness :
    (openPdaAccountWithOffset (fun _ => (0, 255)) 1 0 []).2 = [] ∧
    (openPdaAccountWithoutOffset (fun _ => (0, 255)) 1 []).2 = [] ∧
    setupMultiAccountAccount 0 0 ⟨true, [], []⟩ =
      (Except.error ElusivErr.invalidInstructionData, ⟨true, [], []⟩) :=
  ⟨(c5_no_partial_state_amended (fun _ => (0, 255)) 1 0 []
      ElusivErr.invalidInstructionData 0 0 ⟨true, [], []⟩).1 rfl,
   (c5_no_partial_state_amended (fun _ => (0, 255)) 1 0 []
      ElusivErr.invalidInstructionData 0 0 ⟨true, [], []⟩).2.1 rfl,
   (c5_no_partial_state_amended (fun _ => (0, 255)) 1 0 []
      ElusivErr.invalidInstructionData 0 0 ⟨true, [], []⟩).2.2 rfl⟩

/-- Claim C6: both PDA-opening entry points recompute the expected address
from the derivation (with the offset when present), fail without creating
anything when the caller-supplied key differs from the recomputed address,
and succeed only when the two agree — the supplied address is never trusted
without the comparison. -/
theorem c6_pda_address_checked (find : Option Nat → Nat × Nat)
    (key off : Nat) (ledger : List Nat) :
    ((find (some off)).1 ≠ key →
      openPdaAccountWithOffset find key off ledger =
        (Except.error ElusivErr.invalidInstructionData, ledger)) ∧
    ((find none).1 ≠ key →
      openPdaAccountWithoutOffset find key ledger =
        (Except.error ElusivErr.invalidInstructionData, ledger)) ∧
    ((openPdaAccountWithOffset find key off ledger).1 = Except.ok () →
      (find (some off)).1 = key) ∧
    ((openPdaAccountWithoutOffset find key ledger).1 = Except.ok () →
      (find none).1 = key) := by
  refine ⟨fun h => by simp [openPdaAccountWithOffset, h],
    fun h => by simp [openPdaAccountWithoutOffset, h], ?_, ?_⟩
  · intro h
    by_cases hc : (find (some off)).1 = key
    · exact hc
    · exfalso
      simp [openPdaAccountWithOffset, hc] at h
  · intro h
    by_cases hc : (find none).1 = key
    · exact hc
    · exfalso
      simp [openPdaAccountWithoutOffset, hc] at h

theorem c6_pda_address_checked_witness :
    openPdaAccountWithOffset (fun _ => (0, 255)) 1 0 [] =
      (Except.error ElusivErr.invalidInstructionData, []) ∧
    openPdaAccountWithoutOffset (fun _ => (0, 255)) 1 [] =
      (Except.error ElusivErr.invalidInstructionData, []) :=
  ⟨(c6_pda_address_checked (fun _ => (0, 255)) 1 0 []).1 (by decide),
   (c6_pda_address_checked (fun _ => (0, 255)) 1 0 []).2.1 (by decide)⟩

theorem c7_layout_constants_witness :
    accountsCount 20000 12500 = (20000 + 12500 - 1) / 12500 ∧
    maxValuesPerAccount MAX_ACCOUNT_SIZE 32 = 312500 ∧
    accountsCount 20000 (maxValuesPerAccount MAX_ACCOUNT_SIZE 32) = 1 ∧
    maxValuesPerAccount 400000 32 = 12500 ∧
    accountsCount 20000 (maxValuesPerAccount 400000 32) = 2 ∧
    accountAndLocalIndex (maxValuesPerAccount 400000 32) 12499 = (0, 12499) ∧
    accountAndLocalIndex (maxValuesPerAccount 400000 32) 12500 = (1, 0) :=
  c7_layout_constants 20000 12500 (by decide)


theorem aux_slot_ub (size mva i : Nat) (hm : 0 < mva) (hi : i < size) :
    (accountAndLocalIndex mva i).2 + 1 ≤
      shardElemCount size mva (accountAndLocalIndex mva i).1 := by
  have hrec := aux_recover mva i
  have hmod := aux_local_eq_mod mva i
  have hlt : i % mva < mva := Nat.mod_lt _ hm
  unfold shardElemCount
  split <;> omega

theorem aux_shard_index_lt (w size mva : Nat) (shards : List (List Nat)) (i : Nat)
    (hm : 0 < mva) (hi : i < size) (hwf : WellFormedShards w size mva shards) :
    (accountAndLocalIndex mva i).1 < shards.length := by
  rw [hwf.1]
  exact aux_div_lt_accountsCount size mva i hm hi

theorem aux_slice_in_bounds (w size mva : Nat) (shards : List (List Nat)) (i : Nat)
    (hm : 0 < mva) (hi : i < size) (hwf : WellFormedShards w size mva shards) :
    ((accountAndLocalIndex mva i).2 + 1) * w ≤
      (shards.getD (accountAndLocalIndex mva i).1 []).length := by
  rw [hwf.2 _ (aux_shard_index_lt w size mva shards i hm hi hwf)]
  exact Nat.mul_le_mul_right w (aux_slot_ub size mva i hm hi)

theorem aux_writeBytes_length (buffer bytes : List Nat) (offset : Nat)
    (h : offset + bytes.length ≤ buffer.length) :
    (writeBytes buffer offset bytes).length = buffer.length := by
  simp only [writeBytes, List.length_append, List.length_take, List.length_drop]
  omega

theorem aux_writeBytes_read (buffer bytes : List Nat) (offset : Nat)
    (h : offset + bytes.length ≤ buffer.length) :
    ((writeBytes buffer offset bytes).drop offset).take bytes.length = bytes := by
  have h1 : (buffer.take offset).length = offset := by
    rw [List.length_take]
    omega
  unfold writeBytes
  rw [List.append_assoc, List.drop_left' h1]
  exact List.take_left' rfl

theorem aux_writeBytes_getElem_outside (buffer bytes : List Nat) (offset n : Nat)
    (h : offset + bytes.length ≤ buffer.length)
    (hn : n < offset ∨ offset + bytes.length ≤ n) :
    (writeBytes buffer offset bytes)[n]? = buffer[n]? := by
  have h1 : (buffer.take offset).length = offset := by
    rw [List.length_take]
    omega
  unfold writeBytes
  rw [List.append_assoc]
  rcases hn with hn | hn
  · rw [List.getElem?_append, if_pos (by omega), List.getElem?_take, if_pos hn]
  · rw [List.getElem?_append, if_neg (by omega), h1, List.getElem?_append,
      if_neg (by omega), List.getElem?_drop]
    have harith : offset + bytes.length + (n - offset - bytes.length) = n := by omega
    rw [harith]

theorem aux_slice_getElem (l : List Nat) (o w k : Nat) (hk : k < w) :
    ((l.drop o).take w)[k]? = l[o + k]? := by
  rw [List.getElem?_take, if_pos hk, List.getElem?_drop]

theorem aux_slice_congr (l l2 : List Nat) (o w : Nat)
    (h : ∀ k, k < w → l[o + k]? = l2[o + k]?) :
    (l.drop o).take w = (l2.drop o).take w := by
  apply List.ext_getElem?
  intro n
  by_cases hn : n < w
  · rw [aux_slice_getElem l o w n hn, aux_slice_getElem l2 o w n hn]
    exact h n hn
  · rw [List.getElem?_take, if_neg hn, List.getElem?_take, if_neg hn]

theorem aux_getD_set_self (l : List (List Nat)) (a : Nat) (x : List Nat)
    (h : a < l.length) : (l.set a x).getD a [] = x := by
  rw [List.getD_eq_getElem?_getD, List.getElem?_set_self h]
  rfl

theorem aux_getD_set_ne (l : List (List Nat)) (a b : Nat) (x : List Nat)
    (h : a ≠ b) : (l.set a x).getD b [] = l.getD b [] := by
  rw [List.getD_eq_getElem?_getD, List.getElem?_set_ne h, ← List.getD_eq_getElem?_getD]

/-- Claim C9: the resumable-computation record invariant is preserved by
every operation of the tracker: assuming `round <= total_rounds` before the
call, it holds after any successful `start`, `advance` or `finalize`, and
while a computation is active the round counter only moves by `advance`,
which increments it by exactly 1 (it never decreases: `start` is rejected on
an active record and `finalize` leaves the counter unchanged). -/
theorem c9_computation_record_invariant (c c1 c2 c3 : ComputationRecord)
    (total payer : Nat) (hinv : c.round ≤ c.totalRounds) :
    (recordStart c total payer = Except.ok c1 →
      c1.round ≤ c1.totalRounds ∧ c1.round = 0 ∧ c.isActive = false) ∧
    (recordAdvance c = Except.ok c2 →
      c2.round ≤ c2.totalRounds ∧ c2.round = c.round + 1) ∧
    (recordFinalize c = Except.ok c3 →
      c3.round ≤ c3.totalRounds ∧ c3.round = c.round) := by
  refine ⟨?_, ?_, ?_⟩
  · intro h
    unfold recordStart at h
    split at h
    · cases h
    · next hact =>
      injection h with h
      subst h
      exact ⟨Nat.zero_le _, rfl, by revert hact; cases c.isActive <;> simp⟩
  · intro h
    unfold recordAdvance at h
    split at h
    · cases h
    · split at h
      · cases h
      · next hne =>
        injection h with h
        subst h
        exact ⟨by show c.round + 1 ≤ c.totalRounds; omega, rfl⟩
  · intro h
    unfold recordFinalize at h
    split at h
    · cases h
    · split at h
      · cases h
      · injection h with h
        subst h
        exact ⟨hinv, rfl⟩

theorem c9_computation_record_invariant_witness :
    recordAdvance ⟨true, 0, 2, 0⟩ = Except.ok ⟨true, 1, 2, 0⟩ ∧
    ((⟨true, 1, 2, 0⟩ : ComputationRecord).round ≤
        (⟨true, 1, 2, 0⟩ : ComputationRecord).totalRounds ∧
      (⟨true, 1, 2, 0⟩ : ComputationRecord).round =
        (⟨true, 0, 2, 0⟩ : ComputationRecord).round + 1) :=
  ⟨rfl, (c9_computation_record_invariant ⟨true, 0, 2, 0⟩ ⟨true, 0, 2, 0⟩
      ⟨true, 1, 2, 0⟩ ⟨true, 0, 2, 0⟩ 0 0 (by decide)).2.1 rfl⟩

/-- Claim C10: for every valid logical index `i < SIZE` the accesses of
`get`/`set` are in bounds: the computed shard index is a valid position in
the array-accounts list, and the byte range `[local * W, (local + 1) * W)`
lies inside that shard account buffer (including the last, possibly smaller,
shard), so the list indexing and slicing performed by `account_data` cannot
fail. -/
theorem c10_access_in_bounds (w size mva : Nat) (shards : List (List Nat))
    (i : Nat) (hm : 0 < mva) (hi : i < size)
    (hwf : WellFormedShards w size mva shards) :
    (accountAndLocalIndex mva i).1 < shards.length ∧
    (accountAndLocalIndex mva i).2 * w + w ≤
      (shards.getD (accountAndLocalIndex mva i).1 []).length := by
  refine ⟨aux_shard_index_lt w size mva shards i hm hi hwf, ?_⟩
  have h := aux_slice_in_bounds w size mva shards i hm hi hwf
  have hd : ((accountAndLocalIndex mva i).2 + 1) * w =
      (accountAndLocalIndex mva i).2 * w + w := by ring
  omega

theorem c10_access_in_bounds_witness :
    (accountAndLocalIndex 2 2).1 < ([[0, 0], [0]] : List (List Nat)).length ∧
    (accountAndLocalIndex 2 2).2 * 1 + 1 ≤
      (([[0, 0], [0]] : List (List Nat)).getD (accountAndLocalIndex 2 2).1 []).length :=
  c10_access_in_bounds 1 3 2 [[0, 0], [0]] 2 (by decide) (by decide)
    ⟨by decide, by decide⟩

theorem aux_set_getD_slot {α : Type} (ser : α → List Nat) (w size mva : Nat)
    (shards : List (List Nat)) (i : Nat) (v : α)
    (hm : 0 < mva) (hi : i < size) (hwf : WellFormedShards w size mva shards) :
    (bigArraySet ser w mva shards i v).getD (accountAndLocalIndex mva i).1 [] =
      writeBytes (shards.getD (accountAndLocalIndex mva i).1 [])
        ((accountAndLocalIndex mva i).2 * w) (ser v) := by
  simp only [bigArraySet]
  exact aux_getD_set_self _ _ _ (aux_shard_index_lt w size mva shards i hm hi hwf)

theorem aux_write_in_bounds {α : Type} (ser : α → List Nat) (w size mva : Nat)
    (shards : List (List Nat)) (i : Nat) (v : α)
    (hm : 0 < mva) (hi : i < size) (hser : (ser v).length = w)
    (hwf : WellFormedShards w size mva shards) :
    (accountAndLocalIndex mva i).2 * w + (ser v).length ≤
      (shards.getD (accountAndLocalIndex mva i).1 []).length := by
  have h := aux_slice_in_bounds w size mva shards i hm hi hwf
  have hd : ((accountAndLocalIndex mva i).2 + 1) * w =
      (accountAndLocalIndex mva i).2 * w + w := by ring
  omega

/-- Claim C8: round-trip of the sharded array accessors. Writing a
serializable value `v` (whose serialization has width `W` and round-trips
through deserialization) at a valid index `i` and reading index `i` back
yields `v`; the write touches exactly the `W` bytes of slot `i`: every other
valid slot reads back unchanged, the shard list keeps its length, every
shard buffer keeps its length, and every byte outside the written slot
(an other shard, or an offset outside `[local * W, (local + 1) * W)` in the
written shard) is unchanged. -/
theorem c8_set_get_roundtrip {α : Type} (ser : α → List Nat) (deser : List Nat → α)
    (w size mva : Nat) (shards : List (List Nat)) (i j a n : Nat) (v : α)
    (hm : 0 < mva) (hi : i < size)
    (hser : (ser v).length = w) (hround : deser (ser v) = v)
    (hwf : WellFormedShards w size mva shards) :
    bigArrayGet deser w mva (bigArraySet ser w mva shards i v) i = v ∧
    (j < size → j ≠ i →
      bigArrayGet deser w mva (bigArraySet ser w mva shards i v) j =
        bigArrayGet deser w mva shards j) ∧
    (bigArraySet ser w mva shards i v).length = shards.length ∧
    (a < shards.length →
      ((bigArraySet ser w mva shards i v).getD a []).length =
        (shards.getD a []).length) ∧
    (a ≠ (accountAndLocalIndex mva i).1 ∨ n < (accountAndLocalIndex mva i).2 * w ∨
        ((accountAndLocalIndex mva i).2 + 1) * w ≤ n →
      ((bigArraySet ser w mva shards i v).getD a [])[n]? =
        (shards.getD a [])[n]?) := by
  have hai := aux_shard_index_lt w size mva shards i hm hi hwf
  have hwb := aux_write_in_bounds ser w size mva shards i v hm hi hser hwf
  have hslot := aux_set_getD_slot ser w size mva shards i v hm hi hwf
  refine ⟨?_, ?_, ?_, ?_, ?_⟩
  · unfold bigArrayGet accountDataSlice
    rw [hslot]
    have hrd := aux_writeBytes_read (shards.getD (accountAndLocalIndex mva i).1 [])
      (ser v) ((accountAndLocalIndex mva i).2 * w) hwb
    rw [hser] at hrd
    rw [hrd, hround]
  · intro hj hne
    simp only [bigArrayGet, accountDataSlice]
    by_cases hsh : (accountAndLocalIndex mva j).1 = (accountAndLocalIndex mva i).1
    · have hloc : (accountAndLocalIndex mva j).2 ≠ (accountAndLocalIndex mva i).2 := by
        intro hl
        apply hne
        have h1 := aux_recover mva i
        have h2 := aux_recover mva j
        rw [hsh, hl] at h2
        omega
      rw [hsh, hslot]
      congr 1
      apply aux_slice_congr
      intro k hk
      apply aux_writeBytes_getElem_outside _ _ _ _ hwb
      rw [hser]
      by_cases hlt : (accountAndLocalIndex mva j).2 < (accountAndLocalIndex mva i).2
      · left
        have hmul : ((accountAndLocalIndex mva j).2 + 1) * w ≤
            (accountAndLocalIndex mva i).2 * w :=
          Nat.mul_le_mul_right w hlt
        have hd : ((accountAndLocalIndex mva j).2 + 1) * w =
            (accountAndLocalIndex mva j).2 * w + w := by ring
        omega
      · right
        have hge : (accountAndLocalIndex mva i).2 + 1 ≤ (accountAndLocalIndex mva j).2 := by
          omega
        have hmul : ((accountAndLocalIndex mva i).2 + 1) * w ≤
            (accountAndLocalIndex mva j).2 * w :=
          Nat.mul_le_mul_right w hge
        have hd : ((accountAndLocalIndex mva i).2 + 1) * w =
            (accountAndLocalIndex mva i).2 * w + w := by ring
        omega
    · unfold bigArraySet
      rw [aux_getD_set_ne _ _ _ _ (fun hx => hsh hx.symm)]
  · unfold bigArraySet
    exact List.length_set shards _ _
  · intro ha
    by_cases hsh : a = (accountAndLocalIndex mva i).1
    · subst hsh
      rw [hslot]
      exact aux_writeBytes_length _ _ _ hwb
    · unfold bigArraySet
      rw [aux_getD_set_ne _ _ _ _ (fun hx => hsh hx.symm)]
  · intro hout
    rcases hout with hsh | hout
    · unfold bigArraySet
      rw [aux_getD_set_ne _ _ _ _ (fun hx => hsh hx.symm)]
    · by_cases hsh : a = (accountAndLocalIndex mva i).1
      · subst hsh
        rw [hslot]
        apply aux_writeBytes_getElem_outside _ _ _ _ hwb
        rw [hser]
        have hd : ((accountAndLocalIndex mva i).2 + 1) * w =
            (accountAndLocalIndex mva i).2 * w + w := by ring
        omega
      · unfold bigArraySet
        rw [aux_getD_set_ne _ _ _ _ (fun hx => hsh hx.symm)]

theorem c8_set_get_roundtrip_witness :
    bigArrayGet (fun bytes => bytes.getD 0 0) 1 2
      (bigArraySet (fun value => [value]) 1 2 [[9, 9], [9]] 2 5) 2 = 5 ∧
    bigArrayGet (fun bytes => bytes.getD 0 0) 1 2
      (bigArraySet (fun value => [value]) 1 2 [[9, 9], [9]] 2 5) 0 =
      bigArrayGet (fun bytes => bytes.getD 0 0) 1 2 [[9, 9], [9]] 0 :=
  ⟨(c8_set_get_roundtrip (fun value => [value]) (fun bytes => bytes.getD 0 0)
      1 3 2 [[9, 9], [9]] 2 0 0 0 5 (by decide) (by decide) rfl rfl
      ⟨rfl, by decide⟩).1,
   (c8_set_get_roundtrip (fun value => [value]) (fun bytes => bytes.getD 0 0)
      1 3 2 [[9, 9], [9]] 2 0 0 0 5 (by decide) (by decide) rfl rfl
      ⟨rfl, by decide⟩).2.1 (by decide) (by decide)⟩

end Elusiv
